import Mathlib

/-
  Verification of the time-series container and its operations from the
  SciPy 2024 forecasting notebook
  (src/Scipy2024_Part_4_Forecasting_with_Deep_Learning.ipynb).

  Modelling conventions:
  * a `datetime` is modelled as an integer number of hours since an
    arbitrary epoch (the notebook only ever adds `timedelta(hours=i)`,
    so one hour is the time unit and adding `timedelta(hours=i)` is `+ i`);
  * numeric values (numpy floats) are modelled as rationals, and the final
    square root in the RMSE lands in the reals;
  * a Python `dict` (which preserves insertion order, keeps the original
    position of a key on overwrite, and appends new keys at the end) is
    modelled as an association list together with `dictInsert` / `dictGet`;
  * a numpy 1-D array is a `List ℚ`, a 2-D array a `List (List ℚ)` of its
    rows.
-/

set_option autoImplicit false

namespace Scipy2024

/-- The `TimeSeries` dataclass of the notebook: a plain record with a list
of timestamps and a dictionary of per-series value sequences.  The Python
`@dataclass` constructor performs no validation whatsoever. -/
structure TimeSeries where
  timestamps : List ℤ
  features : List (String × List ℚ)
  deriving DecidableEq

/-- Lookup in a Python dict modelled as an association list: first match
(keys are unique when the list is built with `dictInsert`). -/
def dictGet (d : List (String × List ℚ)) (k : String) : Option (List ℚ) :=
  match d with
  | [] => none
  | p :: rest => if p.1 = k then some p.2 else dictGet rest k

/-- Python dict assignment `d[k] = v`: overwrite in place when the key is
present (keeping its position), append at the end otherwise. -/
def dictInsert (d : List (String × List ℚ)) (k : String) (v : List ℚ) :
    List (String × List ℚ) :=
  match d with
  | [] => [(k, v)]
  | p :: rest => if p.1 = k then (k, v) :: rest else p :: dictInsert rest k v

/-- A sequence of dict assignments `d[k] = v`, one per pair, left to right. -/
def dictInsertAll (d : List (String × List ℚ)) (ps : List (String × List ℚ)) :
    List (String × List ℚ) :=
  ps.foldl (fun fs p => dictInsert fs p.1 p.2) d

/-- One record of the Gluon dataset as the notebook reads it: the fields
`x["start"].start_time` (a timestamp), `x["target"]` (the value sequence)
and `x["item_id"]` (the series identifier). -/
structure GluonRecord where
  start : ℤ
  target : List ℚ
  item_id : String
  deriving DecidableEq

/-- One iteration of the loop in `gluon_ds_to_timeseries`: set the shared
timestamps from the current record if they are still unset, then assign
`features[x["item_id"]] = x["target"]`. -/
def gluonStep (st : Option (List ℤ) × List (String × List ℚ)) (x : GluonRecord) :
    Option (List ℤ) × List (String × List ℚ) :=
  ((match st.1 with
    | none => some ((List.range x.target.length).map (fun i => x.start + (i : ℤ)))
    | some t => some t),
   dictInsert st.2 x.item_id x.target)

/-- `gluon_ds_to_timeseries` from the notebook: fold the loop over the
records, starting from `timestamps = None` and `features = {}`.  For an
empty dataset the Python code returns a container whose `timestamps` field
is still `None`; the embedding uses `[]` there (no claim concerns the empty
dataset). -/
def gluon_ds_to_timeseries (gluon_ds : List GluonRecord) : TimeSeries :=
  let st := gluon_ds.foldl gluonStep (none, [])
  TimeSeries.mk (st.1.getD []) st.2

/-- Numpy boolean-mask indexing `xs[mask]`: keep the elements whose mask
entry is true, position by position. -/
def maskFilter {α : Type} (mask : List Bool) (xs : List α) : List α :=
  (mask.zip xs).filterMap (fun p => if p.1 then some p.2 else none)

/-- `extract_train_dataset` from the notebook: build the boolean mask
`timestamps < date` and apply it to the timestamps and to every feature. -/
def extract_train_dataset (dataset : TimeSeries) (date : ℤ) : TimeSeries :=
  let mask := dataset.timestamps.map (fun t => decide (t < date))
  TimeSeries.mk (maskFilter mask dataset.timestamps)
    (dataset.features.map (fun p => (p.1, maskFilter mask p.2)))

/-- Modelled from the spec: the held-out view is not in the source (only
the train view is); the spec defines it as
`container.slice_by_time(timestamp >= cutoff_time)`, the complementary
mask applied the same way as in `extract_train_dataset`. -/
def extract_heldout_dataset (dataset : TimeSeries) (date : ℤ) : TimeSeries :=
  let mask := dataset.timestamps.map (fun t => decide (date ≤ t))
  TimeSeries.mk (maskFilter mask dataset.timestamps)
    (dataset.features.map (fun p => (p.1, maskFilter mask p.2)))

/-- `timesfm_predictions_to_timeseries` from the notebook.  The Python
function reads two globals, passed here as arguments: `end_of_train` (the
anchor time) and `train_dataset` (whose dict keys supply the series names,
in order).  `pre` is the `prefix` parameter (default `""`), `features0`
the `features` parameter (default `None`, in which case a fresh empty dict
is used).  When a dict is passed, the Python loop assigns into that very
dict in place and the returned container aliases it, so the `features`
field of the result is exactly the contents of the caller-supplied dict
after the call. -/
def timesfm_predictions_to_timeseries (end_of_train : ℤ) (train_dataset : TimeSeries)
    (timesfm_predictions : List (List ℚ)) (pre : String)
    (features0 : Option (List (String × List ℚ))) : TimeSeries :=
  let features := features0.getD []
  let timestamps := (List.range timesfm_predictions.headI.length).map
    (fun i => end_of_train + (i : ℤ))
  let features := ((train_dataset.features.map Prod.fst).zip timesfm_predictions).foldl
    (fun fs p => dictInsert fs (pre ++ p.1) p.2) features
  TimeSeries.mk timestamps features

/-- `np.mean` of a list of rationals (sum divided by length; division by
zero is the junk value 0 of rational division for the empty list). -/
def mean (l : List ℚ) : ℚ :=
  l.sum / l.length

/-- Numpy elementwise subtraction of two 1-D arrays, with numpy
broadcasting: equal lengths subtract pointwise, a length-one operand is
broadcast across the other, and any other shape combination raises
(modelled as `none`). -/
def broadcastSub (a b : List ℚ) : Option (List ℚ) :=
  if a.length = b.length then some (List.zipWith (fun x y => x - y) a b)
  else if a.length = 1 then some (b.map (fun y => a.headI - y))
  else if b.length = 1 then some (a.map (fun x => x - b.headI))
  else none

/-- The radicand of the inline RMSE computation of the notebook,
`np.mean((prediction - ground_truth)**2)`. -/
def rmseSq (a b : List ℚ) : Option ℚ :=
  (broadcastSub a b).map (fun d => mean (d.map (fun x => x ^ 2)))

/-- The inline RMSE computation of the notebook,
`np.sqrt(np.mean((prediction - ground_truth)**2))`, as a function of the
two arrays.  `none` models the numpy broadcast error on incompatible
shapes. -/
noncomputable def rmse (a b : List ℚ) : Option ℝ :=
  (rmseSq a b).map (fun (q : ℚ) => Real.sqrt (q : ℝ))

/-- The alignment invariant of the spec: every series value sequence has
exactly as many elements as the timestamp sequence. -/
def SeriesAligned (t : TimeSeries) : Prop :=
  ∀ p ∈ t.features, p.2.length = t.timestamps.length

instance (t : TimeSeries) : Decidable (SeriesAligned t) :=
  List.decidableBAll _ _

/-- A valid container in the sense of the spec: strictly increasing
timestamps and aligned series. -/
def Valid (t : TimeSeries) : Prop :=
  List.Sorted (· < ·) t.timestamps ∧ SeriesAligned t

instance (t : TimeSeries) : Decidable (Valid t) :=
  inferInstanceAs (Decidable (_ ∧ _))

/-! ### Dictionary lemmas -/

theorem dictGet_dictInsert_self (d : List (String × List ℚ)) (k : String) (v : List ℚ) :
    dictGet (dictInsert d k v) k = some v := by
  induction d with
  | nil => simp [dictInsert, dictGet]
  | cons p rest ih =>
    by_cases h : p.1 = k
    · simp [dictInsert, dictGet, h]
    · simp [dictInsert, dictGet, h, ih]

theorem dictGet_dictInsert_ne (d : List (String × List ℚ)) (k k' : String) (v : List ℚ)
    (h : k' ≠ k) : dictGet (dictInsert d k' v) k = dictGet d k := by
  induction d with
  | nil => simp [dictInsert, dictGet, h]
  | cons p rest ih =>
    by_cases hp : p.1 = k'
    · have hpk : ¬ p.1 = k := fun hk => h (hp.symm.trans hk)
      simp [dictInsert, dictGet, hp, h, hpk]
    · have hk' : ¬ k = k' := fun e => h e.symm
      by_cases hpk : p.1 = k
      · simp [dictInsert, dictGet, hp, hpk, hk']
      · simp [dictInsert, dictGet, hp, hpk, hk', ih]

theorem dictInsertAll_cons (d : List (String × List ℚ)) (p : String × List ℚ)
    (ps : List (String × List ℚ)) :
    dictInsertAll d (p :: ps) = dictInsertAll (dictInsert d p.1 p.2) ps := rfl

theorem dictInsertAll_append (d ps qs : List (String × List ℚ)) :
    dictInsertAll d (ps ++ qs) = dictInsertAll (dictInsertAll d ps) qs :=
  List.foldl_append _ _ _ _

theorem dictGet_dictInsertAll_of_not_mem (d ps : List (String × List ℚ)) (k : String)
    (h : ∀ p ∈ ps, p.1 ≠ k) : dictGet (dictInsertAll d ps) k = dictGet d k := by
  induction ps generalizing d with
  | nil => rfl
  | cons q rest ih =>
    rw [dictInsertAll_cons, ih _ (fun p hp => h p (List.mem_cons_of_mem _ hp)),
      dictGet_dictInsert_ne _ _ _ _ (h q (List.mem_cons_self _ _))]

theorem dictGet_dictInsertAll_of_nodup (d ps : List (String × List ℚ))
    (hnd : (ps.map Prod.fst).Nodup) {p : String × List ℚ} (hp : p ∈ ps) :
    dictGet (dictInsertAll d ps) p.1 = some p.2 := by
  induction ps generalizing d with
  | nil => cases hp
  | cons q rest ih =>
    rw [List.map_cons, List.nodup_cons] at hnd
    rcases List.mem_cons.1 hp with hq | hrest
    · subst hq
      rw [dictInsertAll_cons,
        dictGet_dictInsertAll_of_not_mem _ _ _
          (fun r hr hrk => hnd.1 (by rw [← hrk]; exact List.mem_map_of_mem Prod.fst hr)),
        dictGet_dictInsert_self]
    · exact ih _ hnd.2 hrest

theorem keys_dictInsert (d : List (String × List ℚ)) (k : String) (v : List ℚ) :
    (dictInsert d k v).map Prod.fst =
      if k ∈ d.map Prod.fst then d.map Prod.fst else d.map Prod.fst ++ [k] := by
  induction d with
  | nil => simp [dictInsert]
  | cons p rest ih =>
    by_cases h : p.1 = k
    · simp [dictInsert, h]
    · by_cases hm : k ∈ rest.map Prod.fst
      · have hm' : k ∈ (p :: rest).map Prod.fst := by simp [hm]
        simp [dictInsert, h, ih, hm, hm']
      · have hm' : k ∉ (p :: rest).map Prod.fst := by
          simp only [List.map_cons, List.mem_cons]
          rintro (h1 | h1)
          · exact h h1.symm
          · exact hm h1
        have hkp : ¬ k = p.1 := fun e => h e.symm
        simp [dictInsert, h, ih, hm, hm', hkp]

theorem nodup_keys_dictInsert (d : List (String × List ℚ)) (k : String) (v : List ℚ)
    (h : (d.map Prod.fst).Nodup) : ((dictInsert d k v).map Prod.fst).Nodup := by
  rw [keys_dictInsert]
  by_cases hm : k ∈ d.map Prod.fst
  · simpa [hm] using h
  · simp only [hm, if_false]
    exact List.Nodup.append h (List.nodup_singleton k)
      (fun a ha hk => hm ((List.mem_singleton.1 hk) ▸ ha))

theorem nodup_keys_dictInsertAll (d ps : List (String × List ℚ))
    (h : (d.map Prod.fst).Nodup) : ((dictInsertAll d ps).map Prod.fst).Nodup := by
  induction ps generalizing d with
  | nil => exact h
  | cons q rest ih =>
    rw [dictInsertAll_cons]
    exact ih _ (nodup_keys_dictInsert _ _ _ h)

theorem mem_keys_of_dictGet (d : List (String × List ℚ)) (k : String) (v : List ℚ)
    (h : dictGet d k = some v) : k ∈ d.map Prod.fst := by
  induction d with
  | nil => simp [dictGet] at h
  | cons p rest ih =>
    rw [dictGet] at h
    by_cases hp : p.1 = k
    · simp [hp]
    · rw [if_neg hp] at h
      exact List.mem_cons_of_mem _ (ih h)

theorem filter_key_length_one (d : List (String × List ℚ)) (k : String)
    (hnd : (d.map Prod.fst).Nodup) (hk : k ∈ d.map Prod.fst) :
    (d.filter (fun p => p.1 = k)).length = 1 := by
  induction d with
  | nil => simp at hk
  | cons p rest ih =>
    rw [List.map_cons, List.nodup_cons] at hnd
    by_cases hp : p.1 = k
    · have : rest.filter (fun p => p.1 = k) = [] :=
        List.filter_eq_nil_iff.2 (fun q hq => by
          simp only [decide_eq_true_iff]
          exact fun he => hnd.1 (hp ▸ he ▸ List.mem_map_of_mem Prod.fst hq))
      simp [List.filter_cons, hp, this]
    · have hk' : k ∈ rest.map Prod.fst := by
        rcases List.mem_cons.1 hk with h | h
        · exact absurd h.symm hp
        · exact h
      simp [List.filter_cons, hp, ih hnd.2 hk']

theorem length_dictInsert (d : List (String × List ℚ)) (k : String) (v : List ℚ) :
    (dictInsert d k v).length =
      if k ∈ d.map Prod.fst then d.length else d.length + 1 := by
  have h := congrArg List.length (keys_dictInsert d k v)
  simp only [List.length_map] at h
  rw [h]
  by_cases hm : k ∈ d.map Prod.fst
  · simp [hm]
  · simp [hm]

theorem length_dictInsertAll (d ps : List (String × List ℚ))
    (hfresh : ∀ p ∈ ps, p.1 ∉ d.map Prod.fst) (hnd : (ps.map Prod.fst).Nodup) :
    (dictInsertAll d ps).length = d.length + ps.length := by
  induction ps generalizing d with
  | nil => rfl
  | cons q rest ih =>
    rw [List.map_cons, List.nodup_cons] at hnd
    rw [dictInsertAll_cons, ih _ ?_ hnd.2, length_dictInsert,
      if_neg (hfresh q (List.mem_cons_self _ _))]
    · simp [List.length_cons]
      omega
    · intro p hp
      rw [keys_dictInsert, if_neg (hfresh q (List.mem_cons_self _ _))]
      intro hc
      rcases List.mem_append.1 hc with hc | hc
      · exact hfresh p (List.mem_cons_of_mem _ hp) hc
      · exact hnd.1 ((List.mem_singleton.1 hc) ▸ List.mem_map_of_mem Prod.fst hp)

/-! ### Mask-filter lemmas -/

theorem maskFilter_map_self {α : Type} (pb : α → Bool) (l : List α) :
    maskFilter (l.map pb) l = l.filter pb := by
  induction l with
  | nil => rfl
  | cons x xs ih =>
    by_cases h : pb x
    · simp [maskFilter, List.filter_cons, h] at ih ⊢
      exact ih
    · simp [maskFilter, List.filter_cons, h] at ih ⊢
      exact ih

theorem length_maskFilter_congr {α β : Type} (m : List Bool) (xs : List α) (ys : List β)
    (h : xs.length = ys.length) :
    (maskFilter m xs).length = (maskFilter m ys).length := by
  induction m generalizing xs ys with
  | nil => rfl
  | cons b m ih =>
    cases xs with
    | nil =>
      cases ys with
      | nil => rfl
      | cons y ys => simp at h
    | cons x xs =>
      cases ys with
      | nil => simp at h
      | cons y ys =>
        simp only [List.length_cons, Nat.add_right_cancel_iff] at h
        by_cases hb : b
        · simp [maskFilter, hb] at ih ⊢
          exact ih xs ys h
        · simp [maskFilter, hb] at ih ⊢
          exact ih xs ys h

/-! ### Filter-partition lemmas -/

theorem length_filter_partition {α : Type} (p : α → Bool) (l : List α) :
    (l.filter p).length + (l.filter (fun x => !(p x))).length = l.length := by
  induction l with
  | nil => rfl
  | cons x xs ih =>
    by_cases h : p x
    · simp [List.filter_cons, h]
      omega
    · simp [List.filter_cons, h]
      omega

theorem sorted_filter_lt_append (l : List ℤ) (c : ℤ) (hs : List.Sorted (· < ·) l) :
    l.filter (fun t => decide (t < c)) ++ l.filter (fun t => !decide (t < c)) = l := by
  induction l with
  | nil => rfl
  | cons x xs ih =>
    rw [List.sorted_cons] at hs
    by_cases h : x < c
    · simp only [List.filter_cons, h, decide_True, Bool.not_true, if_true, if_false,
        Bool.false_eq_true, List.cons_append]
      rw [ih hs.2]
    · have h1 : xs.filter (fun t => decide (t < c)) = [] :=
        List.filter_eq_nil_iff.2 (fun t ht => by
          simp only [decide_eq_true_iff]
          intro hc
          exact h (lt_trans (hs.1 t ht) hc))
      have h2 : xs.filter (fun t => !decide (t < c)) = xs :=
        List.filter_eq_self.2 (fun t ht => by
          simp only [Bool.not_eq_true', decide_eq_false_iff_not]
          intro hc
          exact h (lt_trans (hs.1 t ht) hc))
      simp [List.filter_cons, h, h1, h2]

/-! ### Bridging lemmas for the dataset adapters -/

theorem gluonFold_snd (ds : List GluonRecord) (o : Option (List ℤ))
    (d : List (String × List ℚ)) :
    (ds.foldl gluonStep (o, d)).2 =
      dictInsertAll d (ds.map (fun r => (r.item_id, r.target))) := by
  induction ds generalizing o d with
  | nil => rfl
  | cons x rest ih =>
    rw [List.foldl_cons, List.map_cons, dictInsertAll_cons]
    exact ih _ _

theorem gluonFold_fst_some (ds : List GluonRecord) (t : List ℤ)
    (d : List (String × List ℚ)) :
    (ds.foldl gluonStep (some t, d)).1 = some t := by
  induction ds generalizing d with
  | nil => rfl
  | cons x rest ih =>
    rw [List.foldl_cons]
    exact ih _

theorem gluon_features_eq (ds : List GluonRecord) :
    (gluon_ds_to_timeseries ds).features =
      dictInsertAll [] (ds.map (fun r => (r.item_id, r.target))) :=
  gluonFold_snd ds none []

theorem gluon_timestamps_cons (x : GluonRecord) (rest : List GluonRecord) :
    (gluon_ds_to_timeseries (x :: rest)).timestamps =
      (List.range x.target.length).map (fun i => x.start + (i : ℤ)) := by
  show ((x :: rest).foldl gluonStep (none, [])).1.getD [] = _
  rw [List.foldl_cons]
  show ((rest.foldl gluonStep (gluonStep (none, []) x)).1).getD [] = _
  rw [show gluonStep (none, []) x =
      (some ((List.range x.target.length).map (fun i => x.start + (i : ℤ))),
        dictInsert [] x.item_id x.target) from rfl,
    gluonFold_fst_some]
  rfl

theorem timesfm_features_eq (t : ℤ) (td : TimeSeries) (preds : List (List ℚ))
    (pre : String) (features0 : Option (List (String × List ℚ))) :
    (timesfm_predictions_to_timeseries t td preds pre features0).features =
      dictInsertAll (features0.getD [])
        (((td.features.map Prod.fst).zip preds).map (fun p => (pre ++ p.1, p.2))) := by
  show ((td.features.map Prod.fst).zip preds).foldl
      (fun fs p => dictInsert fs (pre ++ p.1) p.2) (features0.getD []) = _
  rw [dictInsertAll, List.foldl_map]

/-! ### RMSE lemmas -/

theorem sum_sq_nonneg (l : List ℚ) : 0 ≤ (l.map (fun x => x ^ 2)).sum :=
  List.sum_nonneg (fun x hx => by
    rcases List.mem_map.1 hx with ⟨y, _, rfl⟩
    exact sq_nonneg y)

theorem sum_sq_self (a : List ℚ) :
    ((List.zipWith (fun x y => x - y) a a).map (fun x => x ^ 2)).sum = 0 := by
  rw [List.zipWith_same, List.map_map]
  exact List.sum_eq_zero (fun x hx => by
    rcases List.mem_map.1 hx with ⟨y, _, rfl⟩
    simp)

theorem sum_sq_zero_iff (a b : List ℚ) (h : a.length = b.length) :
    ((List.zipWith (fun x y => x - y) a b).map (fun x => x ^ 2)).sum = 0 ↔ a = b := by
  induction a generalizing b with
  | nil =>
    cases b with
    | nil => simp
    | cons y ys => simp at h
  | cons x xs ih =>
    cases b with
    | nil => simp at h
    | cons y ys =>
      simp only [List.length_cons, Nat.add_right_cancel_iff] at h
      simp only [List.zipWith_cons_cons, List.map_cons, List.sum_cons]
      constructor
      · intro hsum
        have h1 : 0 ≤ (x - y) ^ 2 := sq_nonneg _
        have h2 : 0 ≤ ((List.zipWith (fun x y => x - y) xs ys).map (fun x => x ^ 2)).sum :=
          sum_sq_nonneg _
        have hx : (x - y) ^ 2 = 0 := by linarith
        have hs : ((List.zipWith (fun x y => x - y) xs ys).map (fun x => x ^ 2)).sum = 0 := by
          linarith
        have hxy : x = y := by
          have h3 : x - y = 0 := by
            nlinarith [hx]
          linarith
        rw [hxy, (ih ys h).1 hs]
      · intro he
        rw [List.cons.injEq] at he
        rw [he.1, (ih ys h).2 he.2]
        ring

theorem rmse_eq_formula (a b : List ℚ) (h : a.length = b.length) :
    rmse a b = some (Real.sqrt
      ((((List.zipWith (fun x y => x - y) a b).map (fun x => x ^ 2)).sum / a.length : ℚ) : ℝ)) := by
  have h1 : rmseSq a b
      = some (mean ((List.zipWith (fun x y => x - y) a b).map (fun x => x ^ 2))) := by
    rw [rmseSq, broadcastSub, if_pos h]
    rfl
  have h2 : mean ((List.zipWith (fun x y => x - y) a b).map (fun x => x ^ 2))
      = ((List.zipWith (fun x y => x - y) a b).map (fun x => x ^ 2)).sum / a.length := by
    rw [mean, List.length_map, List.length_zipWith, ← h, min_self]
  rw [rmse, h1, h2]
  rfl

theorem rmse_self (a : List ℚ) : rmse a a = some 0 := by
  rw [rmse_eq_formula a a rfl, sum_sq_self, zero_div]
  norm_num

/-! ### Claim C1 -/

/-- C1 counterexample: the claim says that constructing a container with a
series whose length differs from the number of timestamps fails and does
not return a container.  The `TimeSeries` dataclass constructor performs no
validation: at the violating input of 4 timestamps and a series of length
3, construction returns a container holding exactly the given fields, and
that container indeed violates the alignment condition. -/
theorem timeSeries_mk_unvalidated_counterexample :
    (TimeSeries.mk [0, 1, 2, 3] [("A", [1, 2, 3])]).timestamps = [0, 1, 2, 3]
    ∧ (TimeSeries.mk [0, 1, 2, 3] [("A", [1, 2, 3])]).features = [("A", [1, 2, 3])]
    ∧ ¬ SeriesAligned (TimeSeries.mk [0, 1, 2, 3] [("A", [1, 2, 3])]) :=
  ⟨rfl, rfl, by decide⟩

/-- C1 (amended): the `TimeSeries` dataclass constructor performs no
validation: for every input, including inputs with a series whose length
differs from the number of timestamps or with non-strictly-increasing
timestamps, construction succeeds and returns a container holding exactly
the given fields.  (A Python dict argument cannot present two series
sharing an identifier, so the duplicate-key condition cannot even arise at
this boundary.) -/
theorem timeSeries_construction_total (ts : List ℤ) (fs : List (String × List ℚ))
    (h : (∃ p ∈ fs, p.2.length ≠ ts.length) ∨ ¬ List.Sorted (· < ·) ts) :
    (TimeSeries.mk ts fs).timestamps = ts ∧ (TimeSeries.mk ts fs).features = fs :=
  ⟨rfl, rfl⟩

theorem timeSeries_construction_total_witness :
    ((∃ p ∈ [("A", [(1 : ℚ), 2, 3])], p.2.length ≠ [(0 : ℤ), 1, 2, 3].length)
      ∨ ¬ List.Sorted (· < ·) [(0 : ℤ), 1, 2, 3])
    ∧ (TimeSeries.mk [(0 : ℤ), 1, 2, 3] [("A", [(1 : ℚ), 2, 3])]).timestamps
        = [(0 : ℤ), 1, 2, 3] :=
  ⟨Or.inl (by decide),
    (timeSeries_construction_total [(0 : ℤ), 1, 2, 3] [("A", [(1 : ℚ), 2, 3])]
      (Or.inl (by decide))).1⟩

/-! ### Claim C3 -/

/-- C3 counterexample: the claim says the RMSE computation fails for every
pair of sequences of unequal length.  With inputs of lengths 3 and 1,
numpy broadcasting applies and the computation returns a numeric result
instead of failing. -/
theorem rmse_broadcast_counterexample :
    (rmse [(5 : ℚ), 5, 5] [(4 : ℚ)]).isSome = true := by
  have h : (rmseSq [(5 : ℚ), 5, 5] [(4 : ℚ)]).isSome = true := by decide
  rcases Option.isSome_iff_exists.1 h with ⟨q, hq⟩
  rw [rmse, hq]
  rfl

/-- C3 (amended): the inline RMSE computation fails (with a numpy
broadcast error, the code defines no LengthMismatchError) exactly when the
two sequences have different lengths and neither has length 1; when one
operand has length 1 numpy broadcasting applies and a numeric result is
returned. -/
theorem rmse_none_iff (a b : List ℚ) :
    rmse a b = none ↔ a.length ≠ b.length ∧ a.length ≠ 1 ∧ b.length ≠ 1 := by
  rw [rmse, rmseSq, broadcastSub]
  split_ifs with h1 h2 h3
  · simp [h1]
  · simp [h1, h2]
  · simp [h1, h2, h3]
  · simp [h1, h2, h3]

/-! ### Claim C4 -/

/-- C4: for equal-length sequences the RMSE equals the square root of the
mean of the squared pointwise differences; every returned value is
non-negative; the computation is symmetric; it is zero on identical
inputs; and it is zero exactly when the sequences are pointwise
identical. -/
theorem rmse_algebraic (a b : List ℚ) (h : a.length = b.length) :
    rmse a b = some (Real.sqrt
      (((List.zipWith (fun x y => (x - y) ^ 2) a b).sum / a.length : ℚ) : ℝ))
    ∧ (∀ r : ℝ, rmse a b = some r → 0 ≤ r)
    ∧ rmse a b = rmse b a
    ∧ rmse a a = some 0
    ∧ (rmse a b = some 0 ↔ a = b) := by
  have hbridge : ∀ (u v : List ℚ),
      (List.zipWith (fun x y => x - y) u v).map (fun x => x ^ 2)
        = List.zipWith (fun x y => (x - y) ^ 2) u v :=
    fun u v => List.map_zipWith _ _ _ _
  refine ⟨?_, ?_, ?_, rmse_self a, ?_⟩
  · rw [rmse_eq_formula a b h, hbridge a b]
  · intro r hr
    rw [rmse] at hr
    rcases Option.map_eq_some'.1 hr with ⟨q, _, rfl⟩
    exact Real.sqrt_nonneg _
  · rw [rmse_eq_formula a b h, rmse_eq_formula b a h.symm, hbridge a b, hbridge b a, ← h,
      List.zipWith_comm_of_comm (fun x y => (x - y) ^ 2) (fun x y => by ring) a b]
  · constructor
    · intro h0
      rw [rmse_eq_formula a b h] at h0
      have h0' : Real.sqrt
          ((((List.zipWith (fun x y => x - y) a b).map (fun x => x ^ 2)).sum
            / a.length : ℚ) : ℝ) = 0 := Option.some.inj h0
      have hS : (0 : ℚ) ≤ ((List.zipWith (fun x y => x - y) a b).map (fun x => x ^ 2)).sum :=
        sum_sq_nonneg _
      have hm : (0 : ℚ) ≤ ((List.zipWith (fun x y => x - y) a b).map (fun x => x ^ 2)).sum
          / a.length := div_nonneg hS (by positivity)
      have hle : ((((List.zipWith (fun x y => x - y) a b).map (fun x => x ^ 2)).sum
          / a.length : ℚ) : ℝ) ≤ 0 := Real.sqrt_eq_zero'.1 h0'
      have hm0 : (((List.zipWith (fun x y => x - y) a b).map (fun x => x ^ 2)).sum
          / a.length : ℚ) = 0 := le_antisymm (by exact_mod_cast hle) hm
      cases a with
      | nil =>
        cases b with
        | nil => rfl
        | cons y ys => simp at h
      | cons x xs =>
        have hlen0 : (x :: xs).length ≠ 0 := by simp
        have hlen : (((x :: xs).length : ℚ)) ≠ 0 := Nat.cast_ne_zero.2 hlen0
        have hS0 : ((List.zipWith (fun x y => x - y) (x :: xs) b).map (fun x => x ^ 2)).sum
            = 0 := by
          rcases div_eq_zero_iff.1 hm0 with h4 | h4
          · exact h4
          · exact absurd h4 hlen
        exact (sum_sq_zero_iff _ _ h).1 hS0
    · intro he
      rw [he]
      exact rmse_self b

theorem rmse_algebraic_witness :
    [(5 : ℚ), 5, 5].length = [(4 : ℚ), 6, 5].length
    ∧ rmse [(5 : ℚ), 5, 5] [(4 : ℚ), 6, 5] = rmse [(4 : ℚ), 6, 5] [(5 : ℚ), 5, 5] :=
  ⟨by decide, (rmse_algebraic [(5 : ℚ), 5, 5] [(4 : ℚ), 6, 5] (by decide)).2.2.1⟩

/-! ### Claim C7 -/

/-- C7 counterexample: the claim says every container produced by the
program satisfies the alignment invariant.  Converting a dataset whose
second record has a value sequence longer than the first produces a
container whose timestamps (derived from the first record only) have
length 2 while the second series has length 3. -/
theorem gluon_misaligned_counterexample :
    ¬ SeriesAligned (gluon_ds_to_timeseries
      [GluonRecord.mk 0 [1, 2] "A", GluonRecord.mk 0 [1, 2, 3] "B"]) := by
  decide

/-- C7 (amended): derived slices preserve the alignment invariant: if
every series of the input container has as many values as the container
has timestamps, the same holds for the train view produced by
`extract_train_dataset`.  Originally constructed containers need not
satisfy the invariant, since neither the constructor nor the dataset
adapter validates it. -/
theorem extract_train_preserves_alignment (d : TimeSeries) (c : ℤ)
    (h : SeriesAligned d) : SeriesAligned (extract_train_dataset d c) := by
  have hfeat : (extract_train_dataset d c).features
      = d.features.map
          (fun q => (q.1, maskFilter (d.timestamps.map (fun t => decide (t < c))) q.2)) := rfl
  have hts : (extract_train_dataset d c).timestamps
      = maskFilter (d.timestamps.map (fun t => decide (t < c))) d.timestamps := rfl
  intro p hp
  rw [hfeat] at hp
  rcases List.mem_map.1 hp with ⟨q, hq, rfl⟩
  rw [hts]
  exact length_maskFilter_congr _ _ _ (h q hq)

theorem extract_train_preserves_alignment_witness :
    SeriesAligned (TimeSeries.mk [0, 1, 2, 3] [("OT", [10, 20, 30, 40])])
    ∧ SeriesAligned
        (extract_train_dataset (TimeSeries.mk [0, 1, 2, 3] [("OT", [10, 20, 30, 40])]) 2) :=
  ⟨by decide,
    extract_train_preserves_alignment
      (TimeSeries.mk [0, 1, 2, 3] [("OT", [10, 20, 30, 40])]) 2 (by decide)⟩

/-! ### Claim C2 -/

/-- C2: for every valid container and every cutoff, the train view holds
exactly the timestamps strictly before the cutoff and the held-out view
the remaining ones, the two are disjoint, their lengths add up to the
length of the original timestamp sequence, concatenating them in order
reproduces the original timestamp sequence, and each series of the train
view is the original series filtered index-for-index by the same boolean
mask as the timestamps. -/
theorem split_partition (d : TimeSeries) (c : ℤ) (h : Valid d) :
    (extract_train_dataset d c).timestamps = d.timestamps.filter (fun t => decide (t < c))
    ∧ (extract_heldout_dataset d c).timestamps = d.timestamps.filter (fun t => decide (c ≤ t))
    ∧ (∀ t : ℤ, t ∈ (extract_train_dataset d c).timestamps →
        t ∈ (extract_heldout_dataset d c).timestamps → False)
    ∧ (extract_train_dataset d c).timestamps.length
        + (extract_heldout_dataset d c).timestamps.length = d.timestamps.length
    ∧ (extract_train_dataset d c).timestamps ++ (extract_heldout_dataset d c).timestamps
        = d.timestamps
    ∧ (extract_train_dataset d c).features
        = d.features.map (fun p =>
            (p.1, maskFilter (d.timestamps.map (fun t => decide (t < c))) p.2)) := by
  have htr : (extract_train_dataset d c).timestamps
      = d.timestamps.filter (fun t => decide (t < c)) := maskFilter_map_self _ _
  have hho : (extract_heldout_dataset d c).timestamps
      = d.timestamps.filter (fun t => decide (c ≤ t)) := maskFilter_map_self _ _
  have hnot : (fun t : ℤ => decide (c ≤ t)) = (fun t : ℤ => !decide (t < c)) := by
    funext t
    by_cases hc : t < c
    · simp [hc, not_le.2 hc]
    · simp [hc, not_lt.1 hc]
  refine ⟨htr, hho, ?_, ?_, ?_, rfl⟩
  · intro t ht1 ht2
    rw [htr, List.mem_filter] at ht1
    rw [hho, List.mem_filter] at ht2
    have h1 : t < c := of_decide_eq_true ht1.2
    have h2 : c ≤ t := of_decide_eq_true ht2.2
    exact absurd h2 (not_le.2 h1)
  · rw [htr, hho, hnot]
    exact length_filter_partition _ _
  · rw [htr, hho, hnot]
    exact sorted_filter_lt_append _ _ h.1

theorem split_partition_witness :
    Valid (TimeSeries.mk [0, 1, 2, 3] [("OT", [10, 20, 30, 40])])
    ∧ (extract_train_dataset (TimeSeries.mk [0, 1, 2, 3] [("OT", [10, 20, 30, 40])]) 2).timestamps
        ++ (extract_heldout_dataset
            (TimeSeries.mk [0, 1, 2, 3] [("OT", [10, 20, 30, 40])]) 2).timestamps
        = [0, 1, 2, 3] :=
  ⟨by decide,
    (split_partition (TimeSeries.mk [0, 1, 2, 3] [("OT", [10, 20, 30, 40])]) 2
      (by decide)).2.2.2.2.1⟩

/-! ### Claim C5 -/

/-- C5 counterexample: the claim says the output container has exactly one
series per record.  With two records sharing the identifier "A" the loop
silently overwrites the dictionary entry: two records yield a single
series, holding the later record values. -/
theorem gluon_dup_id_counterexample :
    (gluon_ds_to_timeseries [GluonRecord.mk 0 [1] "A", GluonRecord.mk 0 [2] "A"]).features
      = [("A", [2])]
    ∧ [GluonRecord.mk 0 [1] "A", GluonRecord.mk 0 [2] "A"].length = 2 := by
  constructor
  · decide
  · rfl

/-- C5 (amended): the conversion derives the shared timestamp sequence
solely from the first record, extrapolating forward one hour per value,
and never re-validates later records; the output has exactly one series
per distinct record identifier, keyed by it, and when the identifiers are
pairwise distinct it has exactly one series per record, mapping each
record identifier to that record values. -/
theorem gluon_conversion (x : GluonRecord) (rest : List GluonRecord)
    (hnd : ((x :: rest).map (fun r => r.item_id)).Nodup) :
    (gluon_ds_to_timeseries (x :: rest)).timestamps
      = (List.range x.target.length).map (fun i => x.start + (i : ℤ))
    ∧ (gluon_ds_to_timeseries (x :: rest)).features.length = (x :: rest).length
    ∧ ∀ r ∈ x :: rest,
        dictGet (gluon_ds_to_timeseries (x :: rest)).features r.item_id = some r.target := by
  refine ⟨gluon_timestamps_cons x rest, ?_, ?_⟩
  · rw [gluon_features_eq,
      length_dictInsertAll [] _ (fun p _ => by simp) (by rw [List.map_map]; exact hnd)]
    simp
  · intro r hr
    rw [gluon_features_eq]
    exact dictGet_dictInsertAll_of_nodup []
      ((x :: rest).map (fun r => (r.item_id, r.target)))
      (by rw [List.map_map]; exact hnd)
      (List.mem_map_of_mem _ hr)

theorem gluon_conversion_witness :
    (([GluonRecord.mk 0 [10] "A", GluonRecord.mk 0 [20] "B"].map
        (fun r => r.item_id)).Nodup)
    ∧ (gluon_ds_to_timeseries
        [GluonRecord.mk 0 [10] "A", GluonRecord.mk 0 [20] "B"]).features.length = 2 :=
  ⟨by decide,
    (gluon_conversion (GluonRecord.mk 0 [10] "A") [GluonRecord.mk 0 [20] "B"]
      (by decide)).2.1⟩

/-! ### Claim C6 -/

/-- C6: for a rectangular forecast array the resulting container has the
timestamps `anchor + j` hours for each column index j, and maps the i-th
supplied series identifier (each zipped pair of a series name and its
prediction row) to row i. -/
theorem timesfm_output (t : ℤ) (td : TimeSeries) (preds : List (List ℚ)) (pre : String)
    (hrect : ∀ row ∈ preds, row.length = preds.headI.length)
    (hkeys : (((td.features.map Prod.fst).zip preds).map (fun p => pre ++ p.1)).Nodup) :
    (timesfm_predictions_to_timeseries t td preds pre none).timestamps
      = (List.range preds.headI.length).map (fun j => t + (j : ℤ))
    ∧ ∀ p ∈ (td.features.map Prod.fst).zip preds,
        dictGet (timesfm_predictions_to_timeseries t td preds pre none).features (pre ++ p.1)
          = some p.2 := by
  refine ⟨rfl, ?_⟩
  intro p hp
  rw [timesfm_features_eq]
  exact dictGet_dictInsertAll_of_nodup _ _
    (by rw [List.map_map]; exact hkeys)
    (List.mem_map_of_mem _ hp)

theorem timesfm_output_witness :
    (∀ row ∈ [[(1 : ℚ), 2, 3], [(4 : ℚ), 5, 6]],
        row.length = ([[(1 : ℚ), 2, 3], [(4 : ℚ), 5, 6]] : List (List ℚ)).headI.length)
    ∧ (timesfm_predictions_to_timeseries 0
        (TimeSeries.mk [0] [("A", [0]), ("B", [0])])
        [[(1 : ℚ), 2, 3], [(4 : ℚ), 5, 6]] "" none).timestamps = [0, 1, 2]
    ∧ dictGet (timesfm_predictions_to_timeseries 0
        (TimeSeries.mk [0] [("A", [0]), ("B", [0])])
        [[(1 : ℚ), 2, 3], [(4 : ℚ), 5, 6]] "" none).features ("" ++ "A")
        = some [(1 : ℚ), 2, 3] := by
  refine ⟨by decide, ?_, ?_⟩
  · rw [(timesfm_output 0 (TimeSeries.mk [0] [("A", [0]), ("B", [0])])
      [[(1 : ℚ), 2, 3], [(4 : ℚ), 5, 6]] "" (by decide) (by decide)).1]
    decide
  · exact (timesfm_output 0 (TimeSeries.mk [0] [("A", [0]), ("B", [0])])
      [[(1 : ℚ), 2, 3], [(4 : ℚ), 5, 6]] "" (by decide) (by decide)).2
      ("A", [(1 : ℚ), 2, 3]) (by decide)

/-! ### Claim C8 -/

/-- C8 counterexample: the claim says a collision of a prefixed series
identifier with an identifier already present in the supplied features
collection fails with DuplicateKeyError.  The code raises nothing: the
dict assignment silently overwrites the existing entry, so with existing
entry ("m_A", [9]) and a prediction for series "A" under the prefix "m_"
the call returns a container whose only series is ("m_A", [1]). -/
theorem timesfm_prefix_collision_counterexample :
    (timesfm_predictions_to_timeseries 0 (TimeSeries.mk [0] [("A", [5])]) [[1]] "m_"
      (some [("m_A", [9])])).features = [("m_A", [1])] := by
  decide

/-- C8 (amended): a collision of a prefixed series identifier with an
existing entry does not fail: the new prediction silently replaces the
existing value, and the resulting container holds exactly one series
under that identifier. -/
theorem timesfm_prefix_collision (t : ℤ) (td : TimeSeries) (preds : List (List ℚ))
    (pre : String) (d : List (String × List ℚ)) (p : String × List ℚ)
    (hd : (d.map Prod.fst).Nodup)
    (hkeys : (((td.features.map Prod.fst).zip preds).map (fun q => pre ++ q.1)).Nodup)
    (hp : p ∈ (td.features.map Prod.fst).zip preds)
    (hcol : pre ++ p.1 ∈ d.map Prod.fst) :
    dictGet (timesfm_predictions_to_timeseries t td preds pre (some d)).features (pre ++ p.1)
      = some p.2
    ∧ ((timesfm_predictions_to_timeseries t td preds pre (some d)).features.filter
        (fun q => q.1 = pre ++ p.1)).length = 1 := by
  have h1 : dictGet (timesfm_predictions_to_timeseries t td preds pre (some d)).features
      (pre ++ p.1) = some p.2 := by
    rw [timesfm_features_eq]
    exact dictGet_dictInsertAll_of_nodup _ _ (by rw [List.map_map]; exact hkeys)
      (List.mem_map_of_mem _ hp)
  refine ⟨h1, ?_⟩
  rw [timesfm_features_eq] at h1 ⊢
  exact filter_key_length_one _ _
    (nodup_keys_dictInsertAll _ _ hd)
    (mem_keys_of_dictGet _ _ _ h1)

theorem timesfm_prefix_collision_witness :
    ("m_" ++ "A" ∈ [("m_A", [(9 : ℚ)])].map Prod.fst)
    ∧ dictGet (timesfm_predictions_to_timeseries 0 (TimeSeries.mk [0] [("A", [5])]) [[1]] "m_"
        (some [("m_A", [9])])).features ("m_" ++ "A") = some [(1 : ℚ)] :=
  ⟨by decide,
    (timesfm_prefix_collision 0 (TimeSeries.mk [0] [("A", [5])]) [[1]] "m_"
      [("m_A", [9])] ("A", [(1 : ℚ)]) (by decide) (by decide) (by decide) (by decide)).1⟩

/-! ### Claim C9 -/

/-- C9 counterexample: the claim says no transformation mutates a
caller-supplied argument and every produced container is a fresh value.
In the source, `timesfm_predictions_to_timeseries` assigns into the
caller-supplied features dict in place and returns a container aliasing
it; the features field of the result is exactly the contents of the
passed dict after the call.  Passing the dict [("B", [9])] together with
one prediction for series "A" leaves the caller dict holding
[("B", [9]), ("A", [1])]: the call changed the contents of its argument. -/
theorem timesfm_mutates_argument_counterexample :
    (timesfm_predictions_to_timeseries 0 (TimeSeries.mk [0] [("A", [5])]) [[1]] ""
      (some [("B", [9])])).features = [("B", [9]), ("A", [1])] := by
  decide

/-- C9 (amended): when a features mapping is supplied,
`timesfm_predictions_to_timeseries` inserts the predictions into that very
mapping and the returned container shares it: every entry of the supplied
mapping whose key is not one of the prefixed series names survives
unchanged into the result. -/
theorem timesfm_writes_through (t : ℤ) (td : TimeSeries) (preds : List (List ℚ))
    (pre : String) (d : List (String × List ℚ)) (k : String) (v : List ℚ)
    (hv : dictGet d k = some v)
    (hk : ∀ name ∈ td.features.map Prod.fst, ¬ pre ++ name = k) :
    dictGet (timesfm_predictions_to_timeseries t td preds pre (some d)).features k
      = some v := by
  rw [timesfm_features_eq]
  rw [dictGet_dictInsertAll_of_not_mem]
  · exact hv
  · intro p hp
    rcases List.mem_map.1 hp with ⟨q, hq, rfl⟩
    rcases q with ⟨q1, q2⟩
    exact hk q1 (List.of_mem_zip hq).1

theorem timesfm_writes_through_witness :
    dictGet [("B", [(9 : ℚ)])] "B" = some [(9 : ℚ)]
    ∧ dictGet (timesfm_predictions_to_timeseries 0 (TimeSeries.mk [0] [("A", [5])]) [[1]] ""
        (some [("B", [9])])).features "B" = some [(9 : ℚ)] :=
  ⟨by decide,
    timesfm_writes_through 0 (TimeSeries.mk [0] [("A", [5])]) [[1]] "" [("B", [9])]
      "B" [(9 : ℚ)] (by decide) (by decide)⟩

/-! ### Claim C10 -/

/-- C10: when two records share a series identifier the conversion does
not fail: the later record values silently replace the earlier ones, and
the resulting container holds exactly one series for that identifier,
containing the values of the last record carrying it. -/
theorem gluon_duplicate_last_wins (earlier : List GluonRecord) (r : GluonRecord)
    (post : List GluonRecord)
    (hdup : ∃ q ∈ earlier, q.item_id = r.item_id)
    (hpost : ∀ q ∈ post, q.item_id ≠ r.item_id) :
    dictGet (gluon_ds_to_timeseries (earlier ++ r :: post)).features r.item_id
      = some r.target
    ∧ ((gluon_ds_to_timeseries (earlier ++ r :: post)).features.filter
        (fun p => p.1 = r.item_id)).length = 1 := by
  have h1 : dictGet (gluon_ds_to_timeseries (earlier ++ r :: post)).features r.item_id
      = some r.target := by
    rw [gluon_features_eq, List.map_append, dictInsertAll_append, List.map_cons,
      dictInsertAll_cons]
    rw [dictGet_dictInsertAll_of_not_mem]
    · exact dictGet_dictInsert_self _ _ _
    · intro p hp
      rcases List.mem_map.1 hp with ⟨q, hq, rfl⟩
      exact hpost q hq
  refine ⟨h1, ?_⟩
  rw [gluon_features_eq] at h1 ⊢
  exact filter_key_length_one _ _
    (nodup_keys_dictInsertAll _ _ (by simp))
    (mem_keys_of_dictGet _ _ _ h1)

theorem gluon_duplicate_last_wins_witness :
    (∃ q ∈ [GluonRecord.mk 0 [1] "A"],
      q.item_id = (GluonRecord.mk (0 : ℤ) [(2 : ℚ)] "A").item_id)
    ∧ dictGet (gluon_ds_to_timeseries
        ([GluonRecord.mk 0 [1] "A"] ++ GluonRecord.mk (0 : ℤ) [(2 : ℚ)] "A" :: [])).features
        "A" = some [(2 : ℚ)] :=
  ⟨by decide,
    (gluon_duplicate_last_wins [GluonRecord.mk 0 [1] "A"]
      (GluonRecord.mk (0 : ℤ) [(2 : ℚ)] "A") [] (by decide) (by decide)).1⟩

end Scipy2024
